import Mathlib

/-!
# Verification of the Web-Audio-Mastering DSP core

Shallow embedding of the repository's DSP pipeline (LUFS measurement,
true-peak detection, normalizer, two-stage lookahead limiter, soft-knee
gain computer, M/S stereo processor) together with proofs about the
claims of the specification.

Modelling conventions:
* JS `number` (IEEE-754 double) arithmetic is modelled exactly over `ℝ`
  (or, for the limiter core which is evaluated on concrete inputs, over an
  arbitrary linear ordered field, so that the very same definitions can be
  run on `ℚ`).  Rounding error is out of scope: the spec's tolerance
  claims ("within float epsilon") are settled over exact arithmetic.
* `Float32Array` channels are lists of scalars; out-of-range reads use
  `List.getD _ _ 0` (the code never reads out of range on well-formed
  buffers).
* JS transcendental library calls (`Math.cos`, `Math.exp`, `Math.tanh`,
  `Math.pow` with non-integral exponents, …) are modelled by the
  corresponding `Real` functions.  Inside the limiter core the three
  transcendental-valued quantities (`releaseCoef`, the knee ratio
  `10^(kneeDB/20)`, and `Math.tanh`) are hoisted to parameters of the
  core so the core stays field-polymorphic; the `ℝ`-level wrapper
  instantiates them exactly as the source does.
-/

namespace WebAudioMastering

/-- Web Audio `AudioBuffer`: a sample rate, a declared frame count, and one
sample list per channel (`getChannelData`).  `duration` is
`length / sampleRate`. -/
structure AudioBuffer where
  sampleRate : ℝ
  length : ℕ
  channels : List (List ℝ)

namespace AudioBuffer

/-- JS `audioBuffer.numberOfChannels`. -/
def numberOfChannels (b : AudioBuffer) : ℕ := b.channels.length

/-- JS `audioBuffer.duration = length / sampleRate`. -/
noncomputable def duration (b : AudioBuffer) : ℝ := (b.length : ℝ) / b.sampleRate

/-- Well-formed buffer: positive sample rate and every channel holds
exactly `length` samples. -/
def WF (b : AudioBuffer) : Prop :=
  0 < b.sampleRate ∧ ∀ ch ∈ b.channels, ch.length = b.length

end AudioBuffer

/-! ## utils.js : biquad filters and Catmull-Rom interpolation -/

/-- Normalized biquad coefficient set `{b0, b1, b2, a1, a2}` (direct form I). -/
structure BiquadCoeffs (α : Type) where
  b0 : α
  b1 : α
  b2 : α
  a1 : α
  a2 : α

/-- The running direct-form-I recurrence of `applyBiquadFilter`; the state is
`(x1, x2, y1, y2)`. -/
def biquadRun {α : Type} [LinearOrderedField α] (c : BiquadCoeffs α) :
    α × α × α × α → List α → List α
  | _, [] => []
  | (x1, x2, y1, y2), x0 :: rest =>
      let y0 := c.b0 * x0 + c.b1 * x1 + c.b2 * x2 - c.a1 * y1 - c.a2 * y2
      y0 :: biquadRun c (x0, x1, y0, y1) rest

/-- Model of `applyBiquadFilter(samples, coeffs)` (utils.js): direct form I IIR with
filter memory starting at zero. -/
def applyBiquadFilter {α : Type} [LinearOrderedField α]
    (samples : List α) (c : BiquadCoeffs α) : List α :=
  biquadRun c (0, 0, 0, 0) samples

/-- Model of `calcHighShelfCoeffs(sampleRate, frequency, gainDB, Q)` (utils.js),
RBJ high-shelf design used by the K-weighting pre-filter. -/
noncomputable def calcHighShelfCoeffs (sampleRate frequency gainDB q : ℝ) :
    BiquadCoeffs ℝ :=
  let A := (10 : ℝ) ^ (gainDB / 40)
  let w0 := 2 * Real.pi * frequency / sampleRate
  let cosW0 := Real.cos w0
  let sinW0 := Real.sin w0
  let alpha := sinW0 / (2 * q)
  let b0 := A * ((A + 1) + (A - 1) * cosW0 + 2 * Real.sqrt A * alpha)
  let b1 := -2 * A * ((A - 1) + (A + 1) * cosW0)
  let b2 := A * ((A + 1) + (A - 1) * cosW0 - 2 * Real.sqrt A * alpha)
  let a0 := (A + 1) - (A - 1) * cosW0 + 2 * Real.sqrt A * alpha
  let a1 := 2 * ((A - 1) - (A + 1) * cosW0)
  let a2 := (A + 1) - (A - 1) * cosW0 - 2 * Real.sqrt A * alpha
  ⟨b0 / a0, b1 / a0, b2 / a0, a1 / a0, a2 / a0⟩

/-- Model of `calcHighPassCoeffs(sampleRate, frequency, Q)` (utils.js), RBJ high-pass
design used by the K-weighting. -/
noncomputable def calcHighPassCoeffs (sampleRate frequency q : ℝ) :
    BiquadCoeffs ℝ :=
  let w0 := 2 * Real.pi * frequency / sampleRate
  let cosW0 := Real.cos w0
  let sinW0 := Real.sin w0
  let alpha := sinW0 / (2 * q)
  let b0 := (1 + cosW0) / 2
  let b1 := -(1 + cosW0)
  let b2 := (1 + cosW0) / 2
  let a0 := 1 + alpha
  let a1 := -2 * cosW0
  let a2 := 1 - alpha
  ⟨b0 / a0, b1 / a0, b2 / a0, a1 / a0, a2 / a0⟩

/-- Model of `interpolateCatmullRom(y0, y1, y2, y3, t)` (utils.js). -/
def interpolateCatmullRom {α : Type} [LinearOrderedField α]
    (y0 y1 y2 y3 t : α) : α :=
  let a0 := -(1/2) * y0 + (3/2) * y1 - (3/2) * y2 + (1/2) * y3
  let a1 := y0 - (5/2) * y1 + 2 * y2 - (1/2) * y3
  let a2 := -(1/2) * y0 + (1/2) * y2
  let a3 := y1
  let t2 := t * t
  let t3 := t2 * t
  a0 * t3 + a1 * t2 + a2 * t + a3

/-! ## lufs.js : integrated LUFS measurement (ITU-R BS.1770-4)

The result type is `Option ℝ`: `none` models the JS return value
`-Infinity`, `some x` a finite LUFS value.

K-weighting / gating constants below are from `constants.js`. -/

namespace LUFS_CONSTANTS

noncomputable def BLOCK_SIZE_SEC : ℝ := 0.4
noncomputable def BLOCK_OVERLAP : ℝ := 0.75
noncomputable def ABSOLUTE_GATE_LINEAR : ℝ := 1e-7
noncomputable def RELATIVE_GATE_OFFSET : ℝ := 0.1
noncomputable def LOUDNESS_OFFSET : ℝ := -0.691

end LUFS_CONSTANTS

/-- The block start offsets of the loop
`for (start = 0; start + blockSize <= length; start += hopSize)`.
Fuel-based recursion (`length + 1` starts are more than enough when
`hopSize ≥ 1`; the JS loop would not terminate for `hopSize = 0`, which no
claim exercises). -/
def blockStartsAux (blockSize hopSize length : ℕ) : ℕ → ℕ → List ℕ
  | 0, _ => []
  | fuel + 1, start =>
      if start + blockSize ≤ length then
        start :: blockStartsAux blockSize hopSize length fuel (start + hopSize)
      else []

def blockStarts (blockSize hopSize length : ℕ) : List ℕ :=
  if hopSize = 0 then [] else blockStartsAux blockSize hopSize length (length + 1) 0

/-- Mean square of one 400ms measurement block (the inner double loop of
`measureLUFS`): sum of squares over all channels of samples
`start ≤ i < start + blockSize`, divided by `blockSize * numChannels`. -/
noncomputable def blockMeanSquare (filtered : List (List ℝ)) (numChannels blockSize start : ℕ) : ℝ :=
  (filtered.map (fun ch =>
    ((List.range blockSize).map (fun j =>
      ch.getD (start + j) 0 * ch.getD (start + j) 0)).sum)).sum
    / ((blockSize : ℝ) * (numChannels : ℝ))

/-- The K-weighting filter stage of `measureLUFS`: high shelf
(1681.97 Hz, +4 dB, Q 0.71) then high pass (38.14 Hz, Q 0.5), per channel. -/
noncomputable def lufsFilteredChannels (b : AudioBuffer) : List (List ℝ) :=
  b.channels.map (fun ch =>
    applyBiquadFilter
      (applyBiquadFilter ch (calcHighShelfCoeffs b.sampleRate 1681.97 4.0 0.71))
      (calcHighPassCoeffs b.sampleRate 38.14 0.5))

noncomputable def lufsBlockSize (b : AudioBuffer) : ℕ :=
  (⌊b.sampleRate * LUFS_CONSTANTS.BLOCK_SIZE_SEC⌋).toNat

noncomputable def lufsHopSize (b : AudioBuffer) : ℕ :=
  (⌊b.sampleRate * LUFS_CONSTANTS.BLOCK_SIZE_SEC * (1 - LUFS_CONSTANTS.BLOCK_OVERLAP)⌋).toNat

/-- The list `blocks` of per-block mean squares built by `measureLUFS`. -/
noncomputable def lufsBlocks (b : AudioBuffer) : List ℝ :=
  (blockStarts (lufsBlockSize b) (lufsHopSize b) b.length).map
    (blockMeanSquare (lufsFilteredChannels b) b.numberOfChannels (lufsBlockSize b))

/-- Model of `measureLUFS(audioBuffer, fallbackLufs)` (lufs.js).  Returns
`some fallbackLufs` when the buffer is shorter than one 400ms block,
`none` (JS `-Infinity`) when no block survives gating, and otherwise the
integrated loudness `-0.691 + 10*log10(mean of gated blocks)`. -/
noncomputable def measureLUFS (b : AudioBuffer) (fallbackLufs : ℝ) : Option ℝ :=
  if b.duration < LUFS_CONSTANTS.BLOCK_SIZE_SEC then some fallbackLufs
  else if lufsBlocks b = [] then none
  else
    let gated1 := (lufsBlocks b).filter
      (fun ms => LUFS_CONSTANTS.ABSOLUTE_GATE_LINEAR < ms)
    if gated1 = [] then none
    else
      let ungatedMean := gated1.sum / (gated1.length : ℝ)
      let gated2 := gated1.filter
        (fun ms => ungatedMean * LUFS_CONSTANTS.RELATIVE_GATE_OFFSET < ms)
      if gated2 = [] then none
      else some (LUFS_CONSTANTS.LOUDNESS_OFFSET +
        10 * Real.logb 10 (gated2.sum / (gated2.length : ℝ)))

/-! ### Silence / short-input lemmas for `measureLUFS` -/

/-- Every element of the output of the biquad recurrence on an all-zero
input (from an all-zero state) is zero, for arbitrary coefficients. -/
lemma biquadRun_zero {α : Type} [LinearOrderedField α] (c : BiquadCoeffs α) :
    ∀ (l : List α), (∀ x ∈ l, x = 0) → ∀ y ∈ biquadRun c (0, 0, 0, 0) l, y = 0 := by
  intro l
  induction l with
  | nil => intro _ y hy; simp [biquadRun] at hy
  | cons x rest ih =>
      intro h y hy
      have hx : x = 0 := h x (List.mem_cons_self _ _)
      subst hx
      simp only [biquadRun, mul_zero, add_zero, zero_sub, zero_add, sub_zero,
        List.mem_cons] at hy
      rcases hy with hy | hy
      · simpa using hy
      · exact ih (fun z hz => h z (List.mem_cons_of_mem _ hz)) y (by simpa using hy)

lemma applyBiquadFilter_zero {α : Type} [LinearOrderedField α]
    (c : BiquadCoeffs α) (l : List α) (h : ∀ x ∈ l, x = 0) :
    ∀ y ∈ applyBiquadFilter l c, y = 0 :=
  biquadRun_zero c l h

/-- Reading (`getD`) an all-zero list with default `0` is `0` at every index. -/
lemma getD_zero_of_all_zero {α : Type} [LinearOrderedField α]
    (l : List α) (h : ∀ x ∈ l, x = (0 : α)) (n : ℕ) : l.getD n (0 : α) = 0 := by
  rcases lt_or_le n l.length with hn | hn
  · rw [List.getD_eq_getElem l 0 hn]
    exact h _ (l.getElem_mem hn)
  · rw [List.getD_eq_getElem?_getD, List.getElem?_eq_none hn]
    rfl

/-- On an all-zero buffer every measurement block has mean square `0`. -/
lemma lufsBlocks_zero_of_silent (b : AudioBuffer)
    (hz : ∀ ch ∈ b.channels, ∀ x ∈ ch, x = 0) :
    ∀ ms ∈ lufsBlocks b, ms = 0 := by
  have hfz : ∀ ch ∈ lufsFilteredChannels b, ∀ x ∈ ch, x = 0 := by
    intro ch hch
    rw [lufsFilteredChannels, List.mem_map] at hch
    obtain ⟨ch0, hch0, rfl⟩ := hch
    exact applyBiquadFilter_zero _ _ (applyBiquadFilter_zero _ _ (hz ch0 hch0))
  intro ms hms
  rw [lufsBlocks, List.mem_map] at hms
  obtain ⟨start, _, rfl⟩ := hms
  have hsum : ∀ ch ∈ lufsFilteredChannels b,
      ((List.range (lufsBlockSize b)).map (fun j =>
        ch.getD (start + j) 0 * ch.getD (start + j) 0)).sum = 0 := by
    intro ch hch
    apply List.sum_eq_zero
    intro x hx
    rw [List.mem_map] at hx
    obtain ⟨j, _, rfl⟩ := hx
    rw [getD_zero_of_all_zero ch (hfz ch hch) (start + j)]
    ring
  unfold blockMeanSquare
  rw [List.map_congr_left hsum]
  simp

/-- Helper: `measureLUFS` on an all-zero buffer that is at least one
measurement block long returns `none` (JS `-Infinity`): the K-weighted
signal is zero, every block's mean square is `0`, and the absolute gate
(`ms > 1e-7`) discards every block. -/
lemma measureLUFS_silent (b : AudioBuffer) (fallbackLufs : ℝ)
    (hz : ∀ ch ∈ b.channels, ∀ x ∈ ch, x = 0)
    (hd : ¬ b.duration < LUFS_CONSTANTS.BLOCK_SIZE_SEC) :
    measureLUFS b fallbackLufs = none := by
  have hbz := lufsBlocks_zero_of_silent b hz
  rw [measureLUFS, if_neg hd]
  by_cases hbe : lufsBlocks b = []
  · rw [if_pos hbe]
  · rw [if_neg hbe]
    have hg1 : (lufsBlocks b).filter
        (fun ms => LUFS_CONSTANTS.ABSOLUTE_GATE_LINEAR < ms) = [] := by
      apply List.filter_eq_nil_iff.mpr
      intro ms hms
      rw [hbz ms hms]
      simp only [LUFS_CONSTANTS.ABSOLUTE_GATE_LINEAR, decide_eq_true_eq, not_lt]
      norm_num
    simp [hg1]

/-! ### Claims C1 and C2 -/

/-- A concrete all-zero buffer that is exactly one 400ms block long:
sample rate 10 Hz, 4 samples (blockSize = ⌊10·0.4⌋ = 4). -/
def silentBuf : AudioBuffer := ⟨10, 4, [[0, 0, 0, 0]]⟩

/-- Claim C1, counterexample.  The claim says an all-zero buffer of at least
one measurement block yields the caller-supplied fallback.  It does not:
on a 4-sample all-zero buffer at 10 Hz (duration exactly one 400ms block)
with fallback `-14`, `measureLUFS` returns `-Infinity` (modelled `none`),
not `some (-14)`: every block is discarded by the absolute gate and the
code returns `-Infinity` at that point. -/
theorem C1_counterexample :
    measureLUFS silentBuf (-14) = none ∧ measureLUFS silentBuf (-14) ≠ some (-14) := by
  have h : measureLUFS silentBuf (-14) = none := by
    apply measureLUFS_silent
    · intro ch hch x hx
      simp only [silentBuf, List.mem_singleton] at hch
      subst hch
      simpa using hx
    · simp only [AudioBuffer.duration, silentBuf, LUFS_CONSTANTS.BLOCK_SIZE_SEC]
      norm_num
  exact ⟨h, by simp [h]⟩

/-- Claim C1, amended.  For every all-zero buffer whose duration is at least
one 400ms measurement block, `measureLUFS` returns `-Infinity` (`none`),
the legitimate silence value — never the fallback, never an exception;
the caller-supplied fallback is reserved for buffers shorter than one
block. -/
theorem C1_silence_measures_negative_infinity (b : AudioBuffer) (fallbackLufs : ℝ)
    (hz : ∀ ch ∈ b.channels, ∀ x ∈ ch, x = 0)
    (hd : LUFS_CONSTANTS.BLOCK_SIZE_SEC ≤ b.duration) :
    measureLUFS b fallbackLufs = none :=
  measureLUFS_silent b fallbackLufs hz (not_lt.mpr hd)

/-- Witness for C1: the amended theorem applied to a concrete two-channel
all-zero buffer (8 samples at 20 Hz, duration 0.4s). -/
theorem C1_witness :
    measureLUFS ⟨20, 8, [List.replicate 8 0, List.replicate 8 0]⟩ 0 = none := by
  apply C1_silence_measures_negative_infinity
  · intro ch hch x hx
    simp only [List.mem_cons, List.mem_singleton, List.not_mem_nil, or_false] at hch
    rcases hch with rfl | rfl <;> exact List.eq_of_mem_replicate hx
  · simp only [AudioBuffer.duration, LUFS_CONSTANTS.BLOCK_SIZE_SEC]
    norm_num

/-- Claim C2.  For every buffer strictly shorter than one 400ms measurement
block, `measureLUFS` returns the caller-supplied fallback value — not
`-Infinity` (`none`), not an exception (the function is total). -/
theorem C2_short_buffer_returns_fallback (b : AudioBuffer) (fallbackLufs : ℝ)
    (hd : b.duration < LUFS_CONSTANTS.BLOCK_SIZE_SEC) :
    measureLUFS b fallbackLufs = some fallbackLufs := by
  rw [measureLUFS, if_pos hd]

/-- Witness for C2: a nonzero 3-sample buffer at 10 Hz.  Its length is
exactly `blockSize - 1` (blockSize = ⌊10·0.4⌋ = 4), the case the claim
singles out; the fallback `-14` is returned. -/
theorem C2_witness :
    measureLUFS ⟨10, 3, [[1, 2, 3]]⟩ (-14) = some (-14) := by
  apply C2_short_buffer_returns_fallback
  simp only [AudioBuffer.duration, LUFS_CONSTANTS.BLOCK_SIZE_SEC]
  norm_num

/-! ## true-peak.js : 4x-oversampled true-peak detection -/

/-- Model of `calculateTruePeakSample([y0,y1,y2,y3])` (true-peak.js): the nominal
point `|y2|` maxed with the Catmull-Rom reconstruction at the quarter-sample
offsets `t = 0.25, 0.5, 0.75` (the source computes the same spline
coefficients inline as `interpolateCatmullRom`). -/
def calculateTruePeakSample {α : Type} [LinearOrderedField α]
    (y0 y1 y2 y3 : α) : α :=
  let p1 := |interpolateCatmullRom y0 y1 y2 y3 0.25|
  let p2 := |interpolateCatmullRom y0 y1 y2 y3 0.5|
  let p3 := |interpolateCatmullRom y0 y1 y2 y3 0.75|
  max (max (max |y2| p1) p2) p3

/-- The linear max-peak scan of `findTruePeak` (true-peak.js): one shared
`maxPeak` accumulator threaded over every channel; within a channel the
4-sample history window is only evaluated once filled (`i >= 3`), on the
window `ch[i-3..i]`. -/
def findTruePeakLinear {α : Type} [LinearOrderedField α]
    (channels : List (List α)) : α :=
  channels.foldl (fun maxPeak ch =>
    (List.range ch.length).foldl (fun peak i =>
      if 3 ≤ i then
        let truePeak := calculateTruePeakSample
          (ch.getD (i - 3) 0) (ch.getD (i - 2) 0) (ch.getD (i - 1) 0) (ch.getD i 0)
        if peak < truePeak then truePeak else peak
      else peak) maxPeak) 0

/-- Model of `findTruePeak(audioBuffer)` (true-peak.js): dBTP result;
`none` models the JS `-Infinity` returned when `maxPeak ≤ 0`. -/
noncomputable def findTruePeak (b : AudioBuffer) : Option ℝ :=
  let maxPeak := findTruePeakLinear b.channels
  if 0 < maxPeak then some (20 * Real.logb 10 maxPeak) else none

/-- A fold whose step fixes the accumulator on every list element is the
identity. -/
lemma foldl_fixed {γ β : Type} (f : γ → β → γ) (l : List β)
    (h : ∀ acc, ∀ x ∈ l, f acc x = acc) : ∀ acc, l.foldl f acc = acc := by
  induction l with
  | nil => intro acc; rfl
  | cons x rest ih =>
      intro acc
      rw [List.foldl_cons, h acc x (List.mem_cons_self _ _)]
      exact ih (fun a y hy => h a y (List.mem_cons_of_mem _ hy)) acc

/-- On a channel shorter than 4 samples the per-channel scan never fires. -/
lemma truePeak_scan_short {α : Type} [LinearOrderedField α]
    (ch : List α) (h : ch.length < 4) (acc : α) :
    (List.range ch.length).foldl (fun peak i =>
      if 3 ≤ i then
        let truePeak := calculateTruePeakSample
          (ch.getD (i - 3) 0) (ch.getD (i - 2) 0) (ch.getD (i - 1) 0) (ch.getD i 0)
        if peak < truePeak then truePeak else peak
      else peak) acc = acc := by
  apply foldl_fixed
  intro a i hi
  rw [List.mem_range] at hi
  rw [if_neg (by omega)]

/-- Claim C10.  For every buffer all of whose channels hold fewer than 4
samples, `findTruePeak` returns `-Infinity` (`none`) — even when the
samples are nonzero — because true-peak evaluation only starts once the
4-sample history window is filled (`i ≥ 3`), and each window's nominal
point is its third sample, so the first two and the final sample of a
channel are never nominal points. -/
theorem C10_short_channels_measure_negative_infinity (b : AudioBuffer)
    (h : ∀ ch ∈ b.channels, ch.length < 4) :
    findTruePeak b = none := by
  have hlin : findTruePeakLinear b.channels = 0 := by
    unfold findTruePeakLinear
    apply foldl_fixed
    intro acc ch hch
    exact truePeak_scan_short ch (h ch hch) acc
  rw [findTruePeak]
  simp [hlin]

/-- Witness for C10: a 3-sample channel with nonzero samples still
measures `-Infinity`. -/
theorem C10_witness : findTruePeak ⟨48000, 3, [[1, -2, 3]]⟩ = none := by
  apply C10_short_channels_measure_negative_infinity
  intro ch hch
  simp only [List.mem_singleton] at hch
  subst hch
  simp

/-! ## normalizer.js : applyGain and normalizeToLUFS -/

/-- Model of `applyGain(audioBuffer, gainDB)` (normalizer.js): every sample of every
channel is multiplied by `10^(gainDB/20)`. -/
noncomputable def applyGain (b : AudioBuffer) (gainDB : ℝ) : AudioBuffer :=
  let gainLinear := (10 : ℝ) ^ (gainDB / 20)
  ⟨b.sampleRate, b.length, b.channels.map (fun ch => ch.map (fun x => x * gainLinear))⟩

/-- Claim C7.  Applying `applyGain` with `g1` and then `g2` equals applying it
once with `g1 + g2` — exactly, over exact arithmetic, since
`10^(g1/20) * 10^(g2/20) = 10^((g1+g2)/20)`. -/
theorem C7_gain_composes (b : AudioBuffer) (g1 g2 : ℝ) :
    applyGain (applyGain b g1) g2 = applyGain b (g1 + g2) := by
  have hg : ∀ x : ℝ, x * (10 : ℝ) ^ (g1 / 20) * (10 : ℝ) ^ (g2 / 20)
      = x * (10 : ℝ) ^ ((g1 + g2) / 20) := by
    intro x
    rw [mul_assoc, ← Real.rpow_add (by norm_num : (0:ℝ) < 10)]
    ring_nf
  simp only [applyGain, List.map_map]
  refine congrArg (AudioBuffer.mk b.sampleRate b.length) ?_
  apply List.map_congr_left
  intro ch _
  simp only [Function.comp, List.map_map]
  apply List.map_congr_left
  intro x _
  exact hg x

/-! ## limiter.js : soft-knee curve and two-stage lookahead limiter

The limiter's arithmetic core is field-polymorphic so the very same
definitions can be evaluated over `ℚ`.  Three transcendental-valued inputs
of the source are therefore hoisted to parameters of the core:
`Math.tanh` (used only in the above-ceiling region of the knee curve), the
knee ratio `kneeRatio = Math.pow(10, kneeDB/20)` (computed inside
`applySoftKneeCurve` in the source), and the per-sample effective-ceiling
function (`ceilingLinear`, raised by `10^(transientMap[i]*0.5/20)` for
transient samples when `preserveTransients` is set).  The `ℝ`-level
wrapper `applyLookaheadLimiter` instantiates all of them exactly as the
source computes them. -/

/-- JS `Math.sign`. -/
def jsSign {α : Type} [LinearOrderedField α] (x : α) : α :=
  if 0 < x then 1 else if x < 0 then -1 else 0

/-- Model of `applySoftKneeCurve(sample, ceiling, kneeDB)` (limiter.js) with the
knee ratio `10^(kneeDB/20)` and `Math.tanh` as parameters: linear below
`0.9*ceiling` and below the knee start `ceiling/kneeRatio`; smoothstep
blend toward the ceiling inside the knee; tanh-compressed and clamped to
the ceiling above it. -/
def applySoftKneeCurve {α : Type} [LinearOrderedField α]
    (tanh : α → α) (kneeRatio : α) (sample ceiling : α) : α :=
  let absSample := |sample|
  if absSample ≤ ceiling * 0.9 then sample
  else
    let kneeStart := ceiling / kneeRatio
    if absSample ≤ kneeStart then sample
    else if absSample ≤ ceiling then
      let t := (absSample - kneeStart) / (ceiling - kneeStart)
      let blend := t * t * (3 - 2 * t)
      let output := absSample + (ceiling - absSample) * blend * 0.5
      jsSign sample * output
    else
      let excess := absSample - ceiling
      let normalized := excess / ceiling
      let compression := 1 - tanh (normalized * 2) * 0.1
      let output := min ceiling (absSample * compression)
      jsSign sample * output

/-- Model of `applySoftKneeOversampled(input, ceiling, kneeDB)` (limiter.js): for
`i ≥ 3`, the input's 4-sample window `input[i-3..i]` is Catmull-Rom
interpolated at `t = 0.25, 0.5, 0.75`; when the largest interpolated
magnitude exceeds the ceiling the current sample is pre-scaled by
`ceiling/maxInterpolated` before the knee curve. -/
def applySoftKneeOversampled {α : Type} [LinearOrderedField α]
    (tanh : α → α) (kneeRatio : α) (input : List α) (ceiling : α) : List α :=
  (List.range input.length).map (fun i =>
    if i < 3 then applySoftKneeCurve tanh kneeRatio (input.getD i 0) ceiling
    else
      let y0 := input.getD (i - 3) 0
      let y1 := input.getD (i - 2) 0
      let y2 := input.getD (i - 1) 0
      let y3 := input.getD i 0
      let m1 := |interpolateCatmullRom y0 y1 y2 y3 0.25|
      let m2 := |interpolateCatmullRom y0 y1 y2 y3 0.5|
      let m3 := |interpolateCatmullRom y0 y1 y2 y3 0.75|
      let maxInterpolated := max (max (max 0 m1) m2) m3
      if ceiling < maxInterpolated then
        applySoftKneeCurve tanh kneeRatio
          (input.getD i 0 * (ceiling / maxInterpolated)) ceiling
      else applySoftKneeCurve tanh kneeRatio (input.getD i 0) ceiling)

/-- Stage 1 of `applyLookaheadLimiter`: the true peak seen at sample `i`
(channel 0's history window, maxed with channel 1's when stereo;
0 before the window is filled). -/
def limiterTruePeakAt {α : Type} [LinearOrderedField α]
    (channels : List (List α)) (i : ℕ) : α :=
  let ch0 := channels.getD 0 []
  let tp0 : α := if 3 ≤ i then
      calculateTruePeakSample
        (ch0.getD (i - 3) 0) (ch0.getD (i - 2) 0) (ch0.getD (i - 1) 0) (ch0.getD i 0)
    else 0
  if 1 < channels.length then
    let ch1 := channels.getD 1 []
    if 3 ≤ i then
      max tp0 (calculateTruePeakSample
        (ch1.getD (i - 3) 0) (ch1.getD (i - 2) 0) (ch1.getD (i - 1) 0) (ch1.getD i 0))
    else tp0
  else tp0

/-- The backward lookahead propagation of one required gain: for
`j = targetIndex..i`, linearly interpolate from the envelope value at
`targetIndex` toward `requiredGain` and take the pointwise minimum with
the already-scheduled reduction. -/
def limiterLookaheadWrite {α : Type} [LinearOrderedField α]
    (requiredGain : α) (lookaheadSamples targetIndex i : ℕ)
    (env : List α) : List α :=
  (List.range (i - targetIndex + 1)).foldl (fun env k =>
    let j := targetIndex + k
    let g0 := env.getD targetIndex 1
    let progress := ((j - targetIndex : ℕ) : α) / (lookaheadSamples : α)
    let smoothedGain := g0 + (requiredGain - g0) * progress
    env.set j (min (env.getD j 1) smoothedGain)) env

/-- Stage 1 of `applyLookaheadLimiter` (limiter.js): the gain-reduction
envelope, initialized to 1.0, with lookahead writes whenever the windowed
true peak exceeds the effective ceiling.  `targetIndex` is
`Math.max(0, i - lookaheadSamples)`, i.e. ℕ-subtraction. -/
def limiterGainEnvelope {α : Type} [LinearOrderedField α]
    (channels : List (List α)) (length lookaheadSamples : ℕ)
    (effCeil : ℕ → α) : List α :=
  (List.range length).foldl (fun env i =>
    let truePeak := limiterTruePeakAt channels i
    let ec := effCeil i
    let requiredGain : α := if ec < truePeak then ec / truePeak else 1
    let targetIndex := i - lookaheadSamples
    if requiredGain < env.getD targetIndex 1 then
      limiterLookaheadWrite requiredGain lookaheadSamples targetIndex i env
    else env) (List.replicate length 1)

/-- Stage 1b of `applyLookaheadLimiter`: forward exponential release
smoothing of the gain envelope, clamped to 1.0. -/
def limiterReleaseSmoothAux {α : Type} [LinearOrderedField α]
    (releaseCoef : α) : α → List α → List α
  | _, [] => []
  | currentGain, g :: rest =>
      let cg := if g < currentGain then g
        else min (releaseCoef * currentGain + (1 - releaseCoef) * 1) 1
      cg :: limiterReleaseSmoothAux releaseCoef cg rest

def limiterReleaseSmooth {α : Type} [LinearOrderedField α]
    (releaseCoef : α) (env : List α) : List α :=
  limiterReleaseSmoothAux releaseCoef 1 env

/-- The full limiter core (stages 1, 1b and 2 of `applyLookaheadLimiter`):
compute and smooth the gain envelope, apply it per channel, then run the
oversampled soft-knee curve as the final safety pass. -/
def applyLookaheadLimiterCore {α : Type} [LinearOrderedField α]
    (tanh : α → α) (kneeRatio : α) (channels : List (List α))
    (ceilingLinear : α) (lookaheadSamples : ℕ) (releaseCoef : α)
    (effCeil : ℕ → α) (length : ℕ) : List (List α) :=
  let env := limiterReleaseSmooth releaseCoef
    (limiterGainEnvelope channels length lookaheadSamples effCeil)
  channels.map (fun ch =>
    let gained := (List.range length).map (fun i => ch.getD i 0 * env.getD i 1)
    applySoftKneeOversampled tanh kneeRatio gained ceilingLinear)

/-! ### Stage 0 (transient analysis) and the ℝ-level wrapper -/

/-- The per-sample mean cross-channel energy `sampleSum` of the limiter's
transient analysis. -/
noncomputable def limiterSampleSumSq (channels : List (List ℝ))
    (numChannels : ℕ) (i : ℕ) : ℝ :=
  (channels.map (fun ch => ch.getD i 0 * ch.getD i 0)).sum / (numChannels : ℝ)

/-- The 10ms sliding-window RMS envelope of the transient analysis. -/
noncomputable def limiterRmsEnvelope (channels : List (List ℝ))
    (numChannels length windowSamples : ℕ) : List ℝ :=
  ((List.range length).foldl (fun (st : ℝ × List ℝ) i =>
    let rmsSum := st.1 + limiterSampleSumSq channels numChannels i -
      (if windowSamples ≤ i then limiterSampleSumSq channels numChannels (i - windowSamples) else 0)
    let windowSize := min (i + 1) windowSamples
    (rmsSum, Real.sqrt (rmsSum / (windowSize : ℝ)) :: st.2)) ((0 : ℝ), [])).2.reverse

/-- The attack/release peak envelope of the transient analysis. -/
noncomputable def limiterPeakEnvelope (channels : List (List ℝ))
    (length : ℕ) (peakAttack peakRelease : ℝ) : List ℝ :=
  ((List.range length).foldl (fun (st : ℝ × List ℝ) i =>
    let peak := (channels.map (fun ch => |ch.getD i 0|)).foldl max 0
    let level := if st.1 < peak then peakAttack * st.1 + (1 - peakAttack) * peak
      else peakRelease * st.1 + (1 - peakRelease) * peak
    (level, level :: st.2)) ((0 : ℝ), [])).2.reverse

/-- Stage 0 of `applyLookaheadLimiter`: the crest-factor transient map
(0 below 6 dB crest factor, 1 above the 10 dB transient threshold). -/
noncomputable def limiterTransientMap (channels : List (List ℝ))
    (numChannels length : ℕ) (sampleRate : ℝ) : List ℝ :=
  let windowSamples := (⌊sampleRate * 10 / 1000⌋).toNat
  let rmsEnvelope := limiterRmsEnvelope channels numChannels length windowSamples
  let peakEnvelope := limiterPeakEnvelope channels length
    (Real.exp (-1 / (0.001 * sampleRate))) (Real.exp (-1 / (0.050 * sampleRate)))
  (List.range length).map (fun i =>
    if 0.0001 < rmsEnvelope.getD i 0 then
      let crestFactorDB := 20 * Real.logb 10 (peakEnvelope.getD i 0 / rmsEnvelope.getD i 0)
      min 1 (max 0 ((crestFactorDB - 6) / (10 - 6)))
    else 0)

/-- Model of `applyLookaheadLimiter(audioBuffer, ceilingLinear, lookaheadMs,
releaseMs, kneeDB, preserveTransients)` (limiter.js). -/
noncomputable def applyLookaheadLimiter (b : AudioBuffer)
    (ceilingLinear lookaheadMs releaseMs kneeDB : ℝ)
    (preserveTransients : Bool) : AudioBuffer :=
  let lookaheadSamples := (⌊b.sampleRate * lookaheadMs / 1000⌋).toNat
  let releaseCoef := Real.exp (-1 / (releaseMs * b.sampleRate / 1000))
  let transientMap : Option (List ℝ) :=
    if preserveTransients then
      some (limiterTransientMap b.channels b.numberOfChannels b.length b.sampleRate)
    else none
  let effCeil : ℕ → ℝ := fun i =>
    match transientMap with
    | some tm =>
        if 0.5 < tm.getD i 0 then
          ceilingLinear * (10 : ℝ) ^ (tm.getD i 0 * 0.5 / 20)
        else ceilingLinear
    | none => ceilingLinear
  ⟨b.sampleRate, b.length,
    applyLookaheadLimiterCore Real.tanh ((10 : ℝ) ^ (kneeDB / 20)) b.channels
      ceilingLinear lookaheadSamples releaseCoef effCeil b.length⟩

/-- Model of `normalizeToLUFS(audioBuffer, targetLUFS, ceilingDB, options)`
(normalizer.js).  Measures loudness with the target as fallback; returns
the input unchanged when loudness is unmeasurable (`-Infinity`); otherwise
applies the gain `targetLUFS - currentLUFS` to every sample, returns the
gained buffer when `skipLimiter` is set, and otherwise routes through the
lookahead limiter exactly when the projected peak
`currentPeakDB + lufsGainDB` exceeds `ceilingDB`. -/
noncomputable def normalizeToLUFS (b : AudioBuffer)
    (targetLUFS ceilingDB : ℝ) (skipLimiter : Bool) : AudioBuffer :=
  match measureLUFS b targetLUFS, findTruePeak b with
  | none, _ => b
  | some currentLUFS, currentPeakDB =>
      let lufsGainDB := targetLUFS - currentLUFS
      let gainLinear := (10 : ℝ) ^ (lufsGainDB / 20)
      let ceilingLinear := (10 : ℝ) ^ (ceilingDB / 20)
      let gainedBuffer : AudioBuffer := ⟨b.sampleRate, b.length,
        b.channels.map (fun ch => ch.map (fun x => x * gainLinear))⟩
      if skipLimiter then gainedBuffer
      else
        match currentPeakDB with
        | some p =>
            if ceilingDB < p + lufsGainDB then
              applyLookaheadLimiter gainedBuffer ceilingLinear 3 100 3 true
            else gainedBuffer
        | none => gainedBuffer

/-- The specification's description of the normalizer (§4.10 / claim C8),
stated from the spec's words as a function of the measured loudness and
measured true peak: gain `targetLUFS - measuredLUFS` applied uniformly;
gain-only when `skipLimiter`; otherwise the lookahead limiter engages
exactly when the projected peak `measuredPeakDb + gainDb` exceeds the
ceiling (a `-Infinity` measured peak never exceeds it). -/
noncomputable def normalizeToLUFSSpec (b : AudioBuffer)
    (targetLUFS ceilingDB : ℝ) (skipLimiter : Bool)
    (measuredLUFS : ℝ) (measuredPeakDb : Option ℝ) : AudioBuffer :=
  let gainDb := targetLUFS - measuredLUFS
  let gained : AudioBuffer := ⟨b.sampleRate, b.length,
    b.channels.map (fun ch => ch.map (fun x => x * (10 : ℝ) ^ (gainDb / 20)))⟩
  if skipLimiter then gained
  else
    match measuredPeakDb with
    | some p =>
        if ceilingDB < p + gainDb then
          applyLookaheadLimiter gained ((10 : ℝ) ^ (ceilingDB / 20)) 3 100 3 true
        else gained
    | none => gained

/-- Claim C8.  Whenever loudness measurement succeeds (`measureLUFS` with the
target as fallback returns a finite value `m`), `normalizeToLUFS` behaves
exactly as the spec describes: it multiplies every sample of every channel
by `10^((targetLUFS - m)/20)`; with `skipLimiter` it returns that gained
buffer with no peak control; otherwise it applies the lookahead limiter if
and only if the projected peak `measuredPeakDb + gainDb` exceeds the
ceiling, returning the gained buffer unlimited otherwise. -/
theorem C8_normalize_refines_spec (b : AudioBuffer)
    (targetLUFS ceilingDB : ℝ) (skipLimiter : Bool) (m : ℝ)
    (h : measureLUFS b targetLUFS = some m) :
    normalizeToLUFS b targetLUFS ceilingDB skipLimiter
      = normalizeToLUFSSpec b targetLUFS ceilingDB skipLimiter m (findTruePeak b) := by
  rw [normalizeToLUFS, h, normalizeToLUFSSpec.eq_def]

/-- Witness for C8: a 3-sample buffer at 10 Hz is shorter than one LUFS
block, so measurement returns the fallback (= the target, hence zero
gain), and the theorem applies. -/
theorem C8_witness :
    measureLUFS ⟨10, 3, [[1, 0, -1]]⟩ (-14) = some (-14) ∧
      normalizeToLUFS ⟨10, 3, [[1, 0, -1]]⟩ (-14) (-1) false
        = normalizeToLUFSSpec ⟨10, 3, [[1, 0, -1]]⟩ (-14) (-1) false (-14)
            (findTruePeak ⟨10, 3, [[1, 0, -1]]⟩) := by
  have h : measureLUFS ⟨10, 3, [[1, 0, -1]]⟩ (-14) = some (-14) := by
    rw [measureLUFS, if_pos]
    simp only [AudioBuffer.duration, LUFS_CONSTANTS.BLOCK_SIZE_SEC]
    norm_num
  exact ⟨h, C8_normalize_refines_spec _ _ _ _ _ h⟩

/-! ### Claim C5 : the gain envelope never exceeds unity -/

/-- A fold preserves any invariant its step preserves. -/
lemma foldl_invariant {γ β : Type} (P : γ → Prop) (f : γ → β → γ) (l : List β)
    (h : ∀ acc x, P acc → P (f acc x)) : ∀ acc, P acc → P (l.foldl f acc) := by
  induction l with
  | nil => intro acc hacc; exact hacc
  | cons x rest ih =>
      intro acc hacc
      rw [List.foldl_cons]
      exact ih (f acc x) (h acc x hacc)

/-- Reading (`getD`) with default 1 of a list bounded by 1 is bounded by 1. -/
lemma getD_le_one {α : Type} [LinearOrderedField α]
    (l : List α) (h : ∀ g ∈ l, g ≤ 1) (j : ℕ) : l.getD j 1 ≤ 1 := by
  rcases lt_or_le j l.length with hj | hj
  · rw [List.getD_eq_getElem l 1 hj]
    exact h _ (l.getElem_mem hj)
  · rw [List.getD_eq_getElem?_getD, List.getElem?_eq_none hj]
    exact le_rfl

/-- A lookahead write keeps the envelope bounded by 1: each write is a
`min` with the previously scheduled value. -/
lemma limiterLookaheadWrite_le_one {α : Type} [LinearOrderedField α]
    (requiredGain : α) (lookaheadSamples targetIndex i : ℕ) (env : List α)
    (h : ∀ g ∈ env, g ≤ 1) :
    ∀ g ∈ limiterLookaheadWrite requiredGain lookaheadSamples targetIndex i env, g ≤ 1 := by
  unfold limiterLookaheadWrite
  apply foldl_invariant (fun env => ∀ g ∈ env, g ≤ 1) _ _ _ _ h
  intro acc k hacc g hg
  rcases List.mem_or_eq_of_mem_set hg with hmem | rfl
  · exact hacc g hmem
  · exact le_trans (min_le_left _ _) (getD_le_one acc hacc _)

/-- Stage 1 invariant: the lookahead gain envelope is everywhere ≤ 1. -/
lemma limiterGainEnvelope_le_one {α : Type} [LinearOrderedField α]
    (channels : List (List α)) (length lookaheadSamples : ℕ) (effCeil : ℕ → α) :
    ∀ g ∈ limiterGainEnvelope channels length lookaheadSamples effCeil, g ≤ 1 := by
  unfold limiterGainEnvelope
  apply foldl_invariant (fun env => ∀ g ∈ env, g ≤ 1)
  · intro acc i hacc
    dsimp only
    split <;> split <;>
      first
        | exact limiterLookaheadWrite_le_one _ _ _ _ acc hacc
        | exact hacc
  · intro g hg
    rw [List.eq_of_mem_replicate hg]

/-- Stage 1b invariant: release smoothing keeps the envelope ≤ 1 — the
release branch is explicitly clamped with `Math.min(·, 1.0)` and the
attack branch copies a value smaller than the current one. -/
lemma limiterReleaseSmoothAux_le_one {α : Type} [LinearOrderedField α]
    (releaseCoef : α) :
    ∀ (env : List α) (currentGain : α), currentGain ≤ 1 →
      ∀ g ∈ limiterReleaseSmoothAux releaseCoef currentGain env, g ≤ 1 := by
  intro env
  induction env with
  | nil => intro cg _ g hg; simp [limiterReleaseSmoothAux] at hg
  | cons x rest ih =>
      intro cg hcg g hg
      rw [limiterReleaseSmoothAux] at hg
      have hstep : (if x < cg then x
          else min (releaseCoef * cg + (1 - releaseCoef) * 1) 1) ≤ 1 := by
        split
        · exact le_trans (le_of_lt (by assumption)) hcg
        · exact min_le_right _ _
      rcases List.mem_cons.mp hg with rfl | hg
      · exact hstep
      · exact ih _ hstep g hg

/-- Claim C5.  In the two-stage lookahead limiter the per-sample
gain-reduction envelope never exceeds 1, both after the lookahead
propagation stage (reductions are combined by `min`, so they only ever
get stronger) and after the exponential release smoothing (the recovery
is clamped at unity and never overshoots), for every input, lookahead,
effective ceiling and release coefficient. -/
theorem C5_gain_envelope_le_one {α : Type} [LinearOrderedField α]
    (channels : List (List α)) (length lookaheadSamples : ℕ)
    (effCeil : ℕ → α) (releaseCoef : α) :
    (∀ g ∈ limiterGainEnvelope channels length lookaheadSamples effCeil, g ≤ 1) ∧
    (∀ g ∈ limiterReleaseSmooth releaseCoef
        (limiterGainEnvelope channels length lookaheadSamples effCeil), g ≤ 1) :=
  ⟨limiterGainEnvelope_le_one channels length lookaheadSamples effCeil,
   limiterReleaseSmoothAux_le_one releaseCoef _ 1 le_rfl⟩

/-- Witness for C5 at `ℚ`: on a concrete one-sample channel both envelope
stages evaluate to `[1]`, and the theorem bounds that member by 1. -/
theorem C5_witness :
    ((1 : ℚ) ∈ limiterGainEnvelope [[2]] 1 0 (fun _ => 1) ∧ (1 : ℚ) ≤ 1) ∧
    ((1 : ℚ) ∈ limiterReleaseSmooth (1/2) (limiterGainEnvelope [[2]] 1 0 (fun _ => 1)) ∧
      (1 : ℚ) ≤ 1) := by
  have henv : limiterGainEnvelope [[2]] 1 0 (fun _ => (1 : ℚ)) = [1] := by
    norm_num [limiterGainEnvelope, limiterTruePeakAt, List.range_succ]
  have hmem1 : (1 : ℚ) ∈ limiterGainEnvelope [[2]] 1 0 (fun _ => 1) := by
    rw [henv]; exact List.mem_singleton.mpr rfl
  have hmem2 : (1 : ℚ) ∈ limiterReleaseSmooth (1/2) (limiterGainEnvelope [[2]] 1 0 (fun _ => 1)) := by
    rw [henv]
    norm_num [limiterReleaseSmooth, limiterReleaseSmoothAux]
  exact ⟨⟨hmem1, (C5_gain_envelope_le_one [[2]] 1 0 (fun _ => 1) (1/2)).1 _ hmem1⟩,
    ⟨hmem2, (C5_gain_envelope_le_one [[2]] 1 0 (fun _ => 1) (1/2)).2 _ hmem2⟩⟩

/-! ### Claim C4 : the limiter's output invariant fails for inter-sample
reconstructed peaks

The claim (and §4.12 of the spec) demands that no output sample *and no
4x-oversampled inter-sample point reconstructed from the output* exceed
the linear ceiling by more than ~1e-4.  The code enforces the ceiling on
the output samples themselves, and pre-scales a sample when the
*input* window of the final knee stage interpolates above the ceiling,
but nothing constrains the Catmull-Rom reconstruction of the *output*
sequence; on the input below it overshoots the ceiling by ≈ 11.75 %.

The evaluation is done on the field-polymorphic limiter core at `ℚ`; the
three hoisted parameters (`Math.tanh`, the knee ratio and the release
coefficient) are universally quantified because the computation never
reaches them on this input: every sample stays in the `|s| ≤ 0.9*ceiling`
fast path of the knee curve, and the release branch only fires at `i = 0`
where it yields `min(rc·1 + (1-rc)·1, 1) = 1` for every `rc`.  The
remaining concrete parameters are those of the source at 48 kHz:
`lookaheadSamples = ⌊48000·3/1000⌋ = 144`, and the effective ceiling is
the constant ceiling (`preserveTransients` disabled). -/
set_option maxHeartbeats 1600000


/-- Claim C4, refuting evaluation.  One stereo-agnostic channel
`[-1.8, 1.8, 1.8, -1.8]` limited to the linear ceiling `2` produces the
output `[-1.8, 259/144, 647/360, -6896/4315]`: every output sample is
below the ceiling, but the 4x-oversampled midpoint reconstructed from the
output by Catmull-Rom interpolation at `t = 0.5` is ≈ 2.235, exceeding
`ceiling + 1e-4`. -/
theorem C4_limiter_intersample_peak_exceeds_ceiling
    (tanh : ℚ → ℚ) (kneeRatio releaseCoef : ℚ) :
    applyLookaheadLimiterCore tanh kneeRatio [[-9/5, 9/5, 9/5, -9/5]] 2 144
        releaseCoef (fun _ => 2) 4
      = [[-9/5, 259/144, 647/360, -6896/4315]] ∧
    (2 : ℚ) + 1/10000 <
      interpolateCatmullRom (-9/5 : ℚ) (259/144) (647/360) (-6896/4315) (1/2) := by
  constructor
  · have henv : limiterGainEnvelope [[-9/5, 9/5, 9/5, -9/5]] 4 144 (fun _ => (2 : ℚ))
        = [1, 1295/1296, 647/648, 431/432] := by
      norm_num [limiterGainEnvelope, limiterTruePeakAt, calculateTruePeakSample,
        interpolateCatmullRom, limiterLookaheadWrite, List.range_succ,
        abs_eq_max_neg, max_def, min_def, List.replicate]
    have hrc : releaseCoef * 1 + (1 - releaseCoef) * 1 = 1 := by ring
    have hrel : limiterReleaseSmooth releaseCoef [1, 1295/1296, 647/648, 431/432]
        = [1, 1295/1296, 647/648, 431/432] := by
      norm_num [limiterReleaseSmooth, limiterReleaseSmoothAux, hrc]
    have hgain : (List.range 4).map (fun i =>
        ([-9/5, 9/5, 9/5, -9/5] : List ℚ).getD i 0 *
          ([1, 1295/1296, 647/648, 431/432] : List ℚ).getD i 1)
        = [-9/5, 259/144, 647/360, -431/240] := by
      norm_num [List.range_succ]
    have hknee : applySoftKneeOversampled tanh kneeRatio
        [-9/5, 259/144, 647/360, -431/240] 2
        = [-9/5, 259/144, 647/360, -6896/4315] := by
      norm_num [applySoftKneeOversampled, applySoftKneeCurve, interpolateCatmullRom,
        jsSign, List.range_succ, abs_eq_max_neg, max_def, min_def]
    simp only [applyLookaheadLimiterCore, henv, hrel, List.map_cons, List.map_nil,
      hgain, hknee]
  · norm_num [interpolateCatmullRom]

/-! ## stereo.js : Mid/Side stereo processor -/

/-- Model of `dbToLinear(db) = Math.pow(10, db/20)` (utils.js). -/
noncomputable def dbToLinear (db : ℝ) : ℝ := (10 : ℝ) ^ (db / 20)

/-- Model of `encodeMS(left, right)` (stereo.js): Mid = `(L+R)*0.5`,
Side = `(L-R)*0.5`, both of `left.length` entries. -/
noncomputable def encodeMS (left right : List ℝ) : List ℝ × List ℝ :=
  ((List.range left.length).map (fun i => (left.getD i 0 + right.getD i 0) * 0.5),
   (List.range left.length).map (fun i => (left.getD i 0 - right.getD i 0) * 0.5))

/-- Model of `decodeMS(mid, side)` (stereo.js): L = `mid+side`, R = `mid-side`,
both of `mid.length` entries. -/
noncomputable def decodeMS (mid side : List ℝ) : List ℝ × List ℝ :=
  ((List.range mid.length).map (fun i => mid.getD i 0 + side.getD i 0),
   (List.range mid.length).map (fun i => mid.getD i 0 - side.getD i 0))

/-- Claim C6.  For equal-length channels, decoding the M/S encoding
reconstructs the input exactly (`(L+R)/2 + (L-R)/2 = L` and
`(L+R)/2 - (L-R)/2 = R` hold exactly over exact arithmetic), which is the
width = 1 / 0 dB / no-bass-mono configuration of the stereo processor. -/
theorem C6_ms_roundtrip (left right : List ℝ) (h : left.length = right.length) :
    decodeMS (encodeMS left right).1 (encodeMS left right).2 = (left, right) := by
  unfold encodeMS decodeMS
  simp only [List.length_map, List.length_range]
  have hget : ∀ (f : ℕ → ℝ) (i : ℕ), i < left.length →
      ((List.range left.length).map f).getD i 0 = f i := by
    intro f i hi
    rw [List.getD_eq_getElem _ 0 (by simpa using hi)]
    simp
  rw [Prod.mk.injEq]
  constructor
  · apply List.ext_getElem (by simp)
    intro i h1 h2
    simp only [List.getElem_map, List.getElem_range]
    rw [hget _ i (by simpa using h2), hget _ i (by simpa using h2),
      List.getD_eq_getElem left 0 h2]
    ring
  · apply List.ext_getElem (by simp [h])
    intro i h1 h2
    simp only [List.getElem_map, List.getElem_range]
    rw [hget _ i (by simp at h1; omega), hget _ i (by simp at h1; omega),
      List.getD_eq_getElem right 0 h2]
    ring

/-- Witness for C6: a concrete equal-length pair round-trips exactly. -/
theorem C6_witness :
    decodeMS (encodeMS [1, 1/2] [0, 2]).1 (encodeMS [1, 1/2] [0, 2]).2
      = (([1, 1/2] : List ℝ), ([0, 2] : List ℝ)) :=
  C6_ms_roundtrip [1, 1/2] [0, 2] (by simp)

/-- The option set of the `StereoProcessor` constructor (stereo.js):
width, bass-mono enable and frequency, balance, and Mid/Side gains. -/
structure StereoOptions where
  width : ℝ
  bassMono : Bool
  bassFreq : ℝ
  balance : ℝ
  midGain : ℝ
  sideGain : ℝ

/-- Model of `calcHighpassCoeffs(sampleRate, frequency)` — the module-local highpass
design of stereo.js (fixed Q = 0.7071). -/
noncomputable def stereoCalcHighpassCoeffs (sampleRate frequency : ℝ) :
    BiquadCoeffs ℝ :=
  let omega := 2 * Real.pi * frequency / sampleRate
  let cosOmega := Real.cos omega
  let sinOmega := Real.sin omega
  let alpha := sinOmega / (2 * 0.7071)
  let b0 := (1 + cosOmega) / 2
  let b1 := -(1 + cosOmega)
  let b2 := (1 + cosOmega) / 2
  let a0 := 1 + alpha
  let a1 := -2 * cosOmega
  let a2 := 1 - alpha
  ⟨b0 / a0, b1 / a0, b2 / a0, a1 / a0, a2 / a0⟩

/-- Model of `StereoProcessor.process(buffer)` (stereo.js).  Non-stereo input is
returned unchanged (with a logged warning in the source).  Otherwise:
encode to M/S, optionally high-pass the Side channel (bass mono), apply
`midGain` to Mid and `sideGain * width` to Side, decode back, and apply
the balance scalers (`balanceL = balance < 0 ? 1 : 1 - balance`,
`balanceR = balance > 0 ? 1 : 1 + balance`).  The module-local
`applyFilter` is textually identical to `applyBiquadFilter` (utils.js)
and is modelled by it. -/
noncomputable def stereoProcess (opts : StereoOptions) (buffer : AudioBuffer) :
    AudioBuffer :=
  if buffer.numberOfChannels ≠ 2 then buffer
  else
    let left := buffer.channels.getD 0 []
    let right := buffer.channels.getD 1 []
    let ms := encodeMS left right
    let processedSide :=
      if opts.bassMono ∧ 0 < opts.bassFreq then
        applyBiquadFilter ms.2 (stereoCalcHighpassCoeffs buffer.sampleRate opts.bassFreq)
      else ms.2
    let midGainLin := dbToLinear opts.midGain
    let sideGainLin := dbToLinear opts.sideGain * opts.width
    let processedMid := ms.1.map (fun x => x * midGainLin)
    let processedSideFinal := processedSide.map (fun x => x * sideGainLin)
    let decoded := decodeMS processedMid processedSideFinal
    let balanceL := if opts.balance < 0 then 1 else 1 - opts.balance
    let balanceR := if 0 < opts.balance then 1 else 1 + opts.balance
    ⟨buffer.sampleRate, buffer.length,
      [decoded.1.map (fun x => x * balanceL), decoded.2.map (fun x => x * balanceR)]⟩

/-- Claim C9.  For every input whose channel count is not exactly 2, the M/S
stereo processor's `process` is a no-op pass-through: the input buffer is
returned unchanged (the source also logs a warning), and no exception is
possible (the function is total), for every width / bass-mono / gain /
balance setting. -/
theorem C9_non_stereo_passthrough (opts : StereoOptions) (buffer : AudioBuffer)
    (h : buffer.numberOfChannels ≠ 2) :
    stereoProcess opts buffer = buffer := by
  rw [stereoProcess, if_pos h]

/-- Witness for C9: a concrete mono buffer with aggressive settings passes
through unchanged. -/
theorem C9_witness :
    stereoProcess ⟨2, true, 200, 1/2, 3, -3⟩ ⟨48000, 2, [[1/2, -1/3]]⟩
      = ⟨48000, 2, [[1/2, -1/3]]⟩ :=
  C9_non_stereo_passthrough _ _ (by simp [AudioBuffer.numberOfChannels])

/-! ## dynamic-processor.js : soft-knee gain computer (claim C3)

`GainComputer.computeGainDb` with the constructor-computed knee bounds
`kneeStart = thresholdDb - kneeDb/2`, `kneeEnd = thresholdDb + kneeDb/2`. -/

/-- Model of `GainComputer.computeGainDb(inputDb)` (dynamic-processor.js): 0 below
the knee, `excess/ratio - excess` above it, and the quadratic blend
`-fullReduction * kneeProgress²` inside the knee. -/
noncomputable def computeGainDb (thresholdDb ratio kneeDb inputDb : ℝ) : ℝ :=
  let kneeStart := thresholdDb - kneeDb / 2
  let kneeEnd := thresholdDb + kneeDb / 2
  if inputDb ≤ kneeStart then 0
  else if kneeEnd ≤ inputDb then
    let excess := inputDb - thresholdDb
    let compressed := excess / ratio
    compressed - excess
  else
    let kneeProgress := (inputDb - kneeStart) / kneeDb
    let fullReduction := (inputDb - thresholdDb) * (1 - 1 / ratio)
    (-fullReduction) * kneeProgress * kneeProgress

/-- The polynomial computed by the knee branch, as a globally defined
function. -/
noncomputable def kneeFun (T r k x : ℝ) : ℝ :=
  -((x - T) * (1 - 1 / r)) * ((x - (T - k / 2)) / k) * ((x - (T - k / 2)) / k)

/-- The affine function computed by the above-knee branch. -/
noncomputable def aboveFun (T r x : ℝ) : ℝ := (x - T) / r - (x - T)

lemma computeGainDb_eq_knee (T r k : ℝ) (hk : 0 < k) :
    ∀ x ∈ Set.Icc (T - k / 2) (T + k / 2), computeGainDb T r k x = kneeFun T r k x := by
  rintro x ⟨hax, hxb⟩
  rw [computeGainDb]
  simp only
  rcases eq_or_lt_of_le hax with rfl | hax'
  · rw [if_pos le_rfl]
    unfold kneeFun
    simp
  · rw [if_neg (not_le.mpr hax')]
    rcases eq_or_lt_of_le hxb with rfl | hxb'
    · rw [if_pos le_rfl]
      unfold kneeFun
      have hkne : k ≠ 0 := ne_of_gt hk
      field_simp
      ring
    · rw [if_neg (not_le.mpr hxb')]
      unfold kneeFun
      ring

lemma computeGainDb_eq_above (T r k : ℝ) (hk : 0 < k) :
    ∀ x ∈ Set.Ici (T + k / 2), computeGainDb T r k x = aboveFun T r x := by
  intro x hx
  rw [Set.mem_Ici] at hx
  rw [computeGainDb]
  simp only
  rw [if_neg (by linarith), if_pos hx]
  rfl

lemma kneeFun_hasDerivAt (T r k : ℝ) (hk : 0 < k) :
    HasDerivAt (kneeFun T r k) (-2 * (1 - 1 / r)) (T + k / 2) := by
  have h1 : HasDerivAt (fun x : ℝ => -((x - T) * (1 - 1 / r))) (-(1 - 1 / r)) (T + k / 2) := by
    simpa using (((hasDerivAt_id (T + k / 2)).sub_const T).mul_const (1 - 1 / r)).neg
  have h2 : HasDerivAt (fun x : ℝ => (x - (T - k / 2)) / k) (1 / k) (T + k / 2) := by
    simpa using ((hasDerivAt_id (T + k / 2)).sub_const (T - k / 2)).div_const k
  have h3 := (h1.mul h2).mul h2
  have hkne : k ≠ 0 := ne_of_gt hk
  unfold kneeFun
  convert h3 using 1
  field_simp
  ring

lemma aboveFun_hasDerivAt (T r x : ℝ) :
    HasDerivAt (aboveFun T r) (1 / r - 1) x := by
  have h1 : HasDerivAt (fun y : ℝ => (y - T) / r) (1 / r) x := by
    simpa using ((hasDerivAt_id x).sub_const T).div_const r
  have h2 : HasDerivAt (fun y : ℝ => y - T) 1 x := (hasDerivAt_id x).sub_const T
  simpa using h1.sub h2

/-- One-sided derivative of `computeGainDb` at the upper knee boundary,
approached from inside the knee: `-2*(1 - 1/ratio)`. -/
lemma computeGainDb_hasDerivWithinAt_left (T r k : ℝ) (hk : 0 < k) :
    HasDerivWithinAt (computeGainDb T r k) (-2 * (1 - 1 / r))
      (Set.Icc (T - k / 2) (T + k / 2)) (T + k / 2) := by
  have hb : T + k / 2 ∈ Set.Icc (T - k / 2) (T + k / 2) := ⟨by linarith, le_rfl⟩
  exact ((kneeFun_hasDerivAt T r k hk).hasDerivWithinAt).congr
    (computeGainDb_eq_knee T r k hk)
    (computeGainDb_eq_knee T r k hk _ hb)

/-- One-sided derivative of `computeGainDb` at the upper knee boundary,
approached from above the knee: `1/ratio - 1 = -(1 - 1/ratio)`. -/
lemma computeGainDb_hasDerivWithinAt_right (T r k : ℝ) (hk : 0 < k) :
    HasDerivWithinAt (computeGainDb T r k) (1 / r - 1)
      (Set.Ici (T + k / 2)) (T + k / 2) := by
  exact ((aboveFun_hasDerivAt T r _).hasDerivWithinAt).congr
    (computeGainDb_eq_above T r k hk)
    (computeGainDb_eq_above T r k hk _ Set.left_mem_Ici)

/-- The gain-reduction curve is continuous everywhere (in particular at
both knee boundaries): the three regimes agree at the junctions. -/
lemma computeGainDb_continuous (T r k : ℝ) (hk : 0 < k) :
    Continuous (computeGainDb T r k) := by
  unfold computeGainDb
  simp only
  apply Continuous.if_le continuous_const ?_ continuous_id continuous_const ?_
  · apply Continuous.if_le ?_ ?_ continuous_const continuous_id ?_
    · fun_prop
    · fun_prop
    · intro x hx
      simp only [id] at hx
      subst hx
      have hkne : k ≠ 0 := ne_of_gt hk
      field_simp
      ring
  · intro x hx
    simp only [id] at hx
    subst hx
    rw [if_neg (by linarith)]
    ring

lemma computeGainDb_zero_at_kneeStart (T r k : ℝ) :
    computeGainDb T r k (T - k / 2) = 0 := by
  rw [computeGainDb]
  simp only
  rw [if_pos le_rfl]

/-- At the lower knee boundary the curve is differentiable with derivative
0 (matching the below-knee regime): the knee branch is quadratically small
there, so the slope from either side tends to 0. -/
lemma computeGainDb_hasDerivAt_kneeStart (T r k : ℝ) (hr : 1 < r) (hk : 0 < k) :
    HasDerivAt (computeGainDb T r k) 0 (T - k / 2) := by
  have hc0 : 0 < 1 - 1 / r := by
    have h1 : 1 / r < 1 := by
      rw [div_lt_one (by linarith)]
      exact hr
    linarith
  have hkne : k ≠ 0 := ne_of_gt hk
  have hfa : computeGainDb T r k (T - k / 2) = 0 := computeGainDb_zero_at_kneeStart T r k
  rw [hasDerivAt_iff_tendsto_slope]
  have hbound : ∀ᶠ x in nhdsWithin (T - k / 2) {T - k / 2}ᶜ,
      ‖slope (computeGainDb T r k) (T - k / 2) x‖
        ≤ (1 - 1 / r) * (1 + k / 2) / (k * k) * |x - (T - k / 2)| := by
    have hδ : 0 < min k 1 := lt_min hk one_pos
    have hball : ∀ᶠ x in nhds (T - k / 2), dist x (T - k / 2) < min k 1 :=
      Metric.eventually_nhds_iff.mpr ⟨min k 1, hδ, fun {_} h => h⟩
    filter_upwards [eventually_nhdsWithin_of_eventually_nhds hball,
      self_mem_nhdsWithin] with x hx hxne
    have hxa : |x - (T - k / 2)| < min k 1 := by
      rw [Real.dist_eq] at hx
      exact hx
    rw [slope_def_field, hfa, sub_zero]
    rcases le_or_lt x (T - k / 2) with hle | hgt
    · have hfx : computeGainDb T r k x = 0 := by
        rw [computeGainDb]
        simp only
        rw [if_pos hle]
      rw [hfx]
      simp only [zero_div, norm_zero]
      positivity
    · have hxb : x < T + k / 2 := by
        have h1 : x - (T - k / 2) < k :=
          lt_of_le_of_lt (le_abs_self _) (lt_of_lt_of_le hxa (min_le_left _ _))
        linarith
      have hfx : computeGainDb T r k x
          = (-((x - T) * (1 - 1 / r))) * ((x - (T - k / 2)) / k) * ((x - (T - k / 2)) / k) := by
        rw [computeGainDb]
        simp only
        rw [if_neg (not_le.mpr hgt), if_neg (not_le.mpr hxb)]
      have hxane : x - (T - k / 2) ≠ 0 := sub_ne_zero.mpr hxne
      have heq : (-((x - T) * (1 - 1 / r))) * ((x - (T - k / 2)) / k) * ((x - (T - k / 2)) / k)
            / (x - (T - k / 2))
          = -((x - T) * (1 - 1 / r) * ((x - (T - k / 2)) / (k * k))) := by
        rw [div_eq_iff hxane]
        field_simp
        exact Or.inl (by ring)
      rw [hfx, heq, norm_neg, norm_mul, norm_mul]
      have hbound1 : ‖x - T‖ ≤ 1 + k / 2 := by
        have h2 : |x - (T - k / 2)| ≤ 1 := le_of_lt (lt_of_lt_of_le hxa (min_le_right _ _))
        have h3 : |T - k / 2 - T| = k / 2 := by
          rw [show T - k / 2 - T = -(k / 2) by ring, abs_neg, abs_of_pos (by linarith)]
        calc ‖x - T‖ = |x - (T - k / 2) + (T - k / 2 - T)| := by
              rw [Real.norm_eq_abs]
              ring_nf
          _ ≤ |x - (T - k / 2)| + |T - k / 2 - T| := abs_add _ _
          _ ≤ 1 + k / 2 := by rw [h3]; linarith
      have hbound2 : ‖(1 - 1 / r : ℝ)‖ = 1 - 1 / r := by
        rw [Real.norm_eq_abs, abs_of_pos hc0]
      calc ‖x - T‖ * ‖(1 - 1 / r : ℝ)‖ * ‖(x - (T - k / 2)) / (k * k)‖
          ≤ (1 + k / 2) * (1 - 1 / r) * (|x - (T - k / 2)| / (k * k)) := by
            apply mul_le_mul
            · exact mul_le_mul hbound1 (le_of_eq hbound2) (norm_nonneg _) (by linarith)
            · rw [Real.norm_eq_abs, abs_div, abs_of_pos (by positivity : (0:ℝ) < k * k)]
            · exact norm_nonneg _
            · positivity
        _ = (1 - 1 / r) * (1 + k / 2) / (k * k) * |x - (T - k / 2)| := by ring
  have htend : Filter.Tendsto
      (fun x : ℝ => (1 - 1 / r) * (1 + k / 2) / (k * k) * |x - (T - k / 2)|)
      (nhdsWithin (T - k / 2) {T - k / 2}ᶜ) (nhds 0) := by
    have h0 : Filter.Tendsto
        (fun x : ℝ => (1 - 1 / r) * (1 + k / 2) / (k * k) * |x - (T - k / 2)|)
        (nhds (T - k / 2))
        (nhds ((1 - 1 / r) * (1 + k / 2) / (k * k) * |(T - k / 2) - (T - k / 2)|)) :=
      (continuous_const.mul ((continuous_id.sub continuous_const).abs)).tendsto (T - k / 2)
    have h1 : Filter.Tendsto
        (fun x : ℝ => (1 - 1 / r) * (1 + k / 2) / (k * k) * |x - (T - k / 2)|)
        (nhds (T - k / 2)) (nhds 0) := by
      simpa using h0
    exact h1.mono_left nhdsWithin_le_nhds
  exact squeeze_zero_norm' hbound htend

/-- Claim C3, counterexample.  At threshold 0 dB, ratio 2, knee width 2 dB,
the gain-reduction curve is *not differentiable* at the upper knee
boundary `kneeEnd = threshold + knee/2 = 1`: the slope from inside the
knee is `-2*(1 - 1/ratio) = -1`, while the slope from above is
`-(1 - 1/ratio) = -1/2`.  So the claim's required continuity of the first
derivative at both knee boundaries fails. -/
theorem C3_counterexample : ¬ DifferentiableAt ℝ (computeGainDb 0 2 2) 1 := by
  intro h
  have hd := h.hasDerivAt
  have hleft : HasDerivWithinAt (computeGainDb 0 2 2) (-2 * (1 - 1 / 2))
      (Set.Icc ((0 : ℝ) - 2 / 2) ((0 : ℝ) + 2 / 2)) ((0 : ℝ) + 2 / 2) :=
    computeGainDb_hasDerivWithinAt_left 0 2 2 (by norm_num)
  have hright : HasDerivWithinAt (computeGainDb 0 2 2) (1 / 2 - 1)
      (Set.Ici ((0 : ℝ) + 2 / 2)) ((0 : ℝ) + 2 / 2) :=
    computeGainDb_hasDerivWithinAt_right 0 2 2 (by norm_num)
  have hIcc : Set.Icc ((0 : ℝ) - 2 / 2) ((0 : ℝ) + 2 / 2) = Set.Icc (-1 : ℝ) 1 := by
    norm_num
  have hpt : ((0 : ℝ) + 2 / 2) = 1 := by norm_num
  rw [hIcc, hpt] at hleft
  rw [hpt] at hright
  have hu1 : UniqueDiffWithinAt ℝ (Set.Icc (-1 : ℝ) 1) 1 :=
    (uniqueDiffOn_Icc (by norm_num : (-1 : ℝ) < 1)) 1 (by norm_num)
  have hu2 : UniqueDiffWithinAt ℝ (Set.Ici (1 : ℝ)) 1 :=
    (uniqueDiffOn_Ici (1 : ℝ)) 1 Set.left_mem_Ici
  have he1 : deriv (computeGainDb 0 2 2) 1 = -2 * (1 - 1 / 2) :=
    hu1.eq_deriv _ (hd.hasDerivWithinAt) hleft
  have he2 : deriv (computeGainDb 0 2 2) 1 = 1 / 2 - 1 :=
    hu2.eq_deriv _ (hd.hasDerivWithinAt) hright
  rw [he1] at he2
  norm_num at he2

/-- Claim C3, amended.  For every threshold, ratio > 1 and knee width > 0,
`computeGainDb` is continuous (in particular at both knee boundaries) and
has derivative 0 at the lower boundary `threshold - knee/2`, matching the
below-knee regime; but at the upper boundary `threshold + knee/2` the two
one-sided derivatives differ — `-2*(1 - 1/ratio)` from inside the knee
versus `1/ratio - 1 = -(1 - 1/ratio)` from above — so the first
derivative is discontinuous there. -/
theorem C3_knee_continuity_amended (T r k : ℝ) (hr : 1 < r) (hk : 0 < k) :
    Continuous (computeGainDb T r k) ∧
    HasDerivAt (computeGainDb T r k) 0 (T - k / 2) ∧
    HasDerivWithinAt (computeGainDb T r k) (-2 * (1 - 1 / r))
      (Set.Icc (T - k / 2) (T + k / 2)) (T + k / 2) ∧
    HasDerivWithinAt (computeGainDb T r k) (1 / r - 1)
      (Set.Ici (T + k / 2)) (T + k / 2) ∧
    -2 * (1 - 1 / r) ≠ 1 / r - 1 := by
  refine ⟨computeGainDb_continuous T r k hk,
    computeGainDb_hasDerivAt_kneeStart T r k hr hk,
    computeGainDb_hasDerivWithinAt_left T r k hk,
    computeGainDb_hasDerivWithinAt_right T r k hk, ?_⟩
  have hc0 : 0 < 1 - 1 / r := by
    have h1 : 1 / r < 1 := by
      rw [div_lt_one (by linarith)]
      exact hr
    linarith
  intro heq
  have : (1 : ℝ) - 1 / r = 0 := by linarith
  linarith

/-- Witness for C3's amended theorem at threshold 0, ratio 2, knee 2. -/
theorem C3_witness :
    Continuous (computeGainDb 0 2 2) ∧
    HasDerivAt (computeGainDb 0 2 2) 0 ((0 : ℝ) - 2 / 2) ∧
    HasDerivWithinAt (computeGainDb 0 2 2) (-2 * (1 - 1 / 2))
      (Set.Icc ((0 : ℝ) - 2 / 2) ((0 : ℝ) + 2 / 2)) ((0 : ℝ) + 2 / 2) ∧
    HasDerivWithinAt (computeGainDb 0 2 2) (1 / 2 - 1)
      (Set.Ici ((0 : ℝ) + 2 / 2)) ((0 : ℝ) + 2 / 2) ∧
    (-2 : ℝ) * (1 - 1 / 2) ≠ 1 / 2 - 1 :=
  C3_knee_continuity_amended 0 2 2 (by norm_num) (by norm_num)

end WebAudioMastering
